import Mathlib

/-!
Verification of the round/level state machine and scoring engine of the
Hangman game (src/Hangman.py).  The definitions below are a shallow
embedding of the game-logic methods `update_hidden_word`, `get_hint`,
`check_game_status` and the inner loop of `play_game`; presentation,
sound and persistence calls are pure output and are dropped.  Python
strings become `List Char`, Python ints become `Int` (or `Nat` for
counters that are only ever incremented or zeroed), the `guessed_letters`
set becomes a `List Char` used through membership, and the random
choices (`random.choice`) are injected as an explicit selector argument.
-/

set_option autoImplicit false

/-- Per-round mutable state of the inner loop of `play_game`
(Hangman.py lines 1423-1433): the secret word `word_to_guess`, the
reveal mask `hidden_word` (with `-` for unrevealed positions), the set
of guessed letters, the attempt budget, the wrong-guess counter, the
round score `level_score`, the correct-reveal counter `guessed`, and
the whole-word-bonus flag `one_time_guess`. -/
structure RoundState where
  word_to_guess : List Char
  hidden_word : List Char
  guessed_letters : List Char
  attempts_left : Int
  wrong_guesses : Nat
  level_score : Int
  guessed : Nat
  one_time_guess : Bool
deriving DecidableEq

/-- Session-level state threaded through rounds: `self.level`,
`self.global_score` and `self.hints` of the `Hangman` object. -/
structure SessionState where
  level : Nat
  global_score : Int
  hints : Int
deriving DecidableEq

/-- Difficulty modes offered by `select_difficulty`. -/
inductive Mode
  | normal
  | hard
  | custom
deriving DecidableEq

/-- Starting hint balance chosen by `select_difficulty`
(Hangman.py lines 1239, 1247, 1254). -/
def initial_hints : Mode → Int
  | Mode.normal => 3
  | Mode.hard => 1
  | Mode.custom => 2

/-- Return value of `check_game_status`. -/
inductive Status
  | win
  | lose
  | cont
deriving DecidableEq

/-- Local notices signalled to the player during a round (printed
messages in the Python source); they carry no state. -/
inductive Notice
  | correct
  | incorrect
  | repeatGuess
  | noHintsLeft
  | nothingToHint
  | hintRevealed
  | invalidInput
deriving DecidableEq

/-- How one iteration of the inner loop of `play_game` ends: the loop
continues (with some notice), the round is won, the round is lost, or
the player stopped the game with `stp`. -/
inductive Outcome
  | playOn (n : Notice)
  | win
  | lose
  | stopped
deriving DecidableEq

/-- One player action read by the inner loop of `play_game`.  `hint`
carries the injected random selector for `random.choice` in `get_hint`;
`guessLetter` is a single alphabetic character; `guessWord` is a
multi-character alphabetic word; `invalid` is any other input. -/
inductive PlayerAction
  | stop
  | hint (k : Nat)
  | guessLetter (c : Char)
  | guessWord (w : List Char)
  | invalid

/-- `update_hidden_word` (Hangman.py lines 1339-1363): reveal every
occurrence of `guessed_letter`, keeping other positions of the mask.
The Python loop walks indices `0..len(word_to_guess)`, reading
`hidden_word[i]`; the two strings always have equal length. -/
def update_hidden_word (word_to_guess hidden_word : List Char)
    (guessed_letter : Char) : List Char :=
  List.zipWith
    (fun w h => if w = guessed_letter then guessed_letter else h)
    word_to_guess hidden_word

/-- The list `[i for i, char in enumerate(hidden_word) if char == "-"]`
of `get_hint` (Hangman.py line 1384), written with an explicit index
accumulator. -/
def hidden_positions_from : List Char → Nat → List Nat
  | [], _ => []
  | c :: cs, i =>
    if c = '-' then i :: hidden_positions_from cs (i + 1)
    else hidden_positions_from cs (i + 1)

/-- Positions of the mask that are still hidden. -/
def hidden_positions (hidden_word : List Char) : List Nat :=
  hidden_positions_from hidden_word 0

/-- `get_hint` (Hangman.py lines 1365-1403): with no hints left or no
hidden position, return the mask unchanged and no letter; otherwise
reveal all occurrences of the letter at a randomly chosen hidden
position (the choice is injected as `k`, reduced modulo the number of
candidates) and consume one hint.  Returns the new mask, the revealed
letter and the new hint balance. -/
def get_hint (word_to_guess hidden_word : List Char) (hints : Int)
    (k : Nat) : List Char × Option Char × Int :=
  if hints ≤ 0 then (hidden_word, none, hints)
  else
    let hp := hidden_positions hidden_word
    if hp.isEmpty then (hidden_word, none, hints)
    else
      let position := hp.getD (k % hp.length) 0
      let hint_letter := word_to_guess.getD position '-'
      (update_hidden_word word_to_guess hidden_word hint_letter,
        some hint_letter, hints - 1)

/-- The return value of `check_game_status` (Hangman.py lines
1072-1183): `win` when the mask equals the word, else `lose` when no
attempts remain, else `continue`.  The `wrong_guesses` and
`one_time_guess` arguments only affect the printed screens. -/
def check_game_status (hidden_word word_to_guess : List Char)
    (attempts_left : Int) (wrong_guesses : Nat)
    (one_time_guess : Bool) : Status :=
  if hidden_word = word_to_guess then Status.win
  else if attempts_left = 0 then Status.lose
  else Status.cont

/-- The penalty applied to both an incorrect letter guess and an
incorrect whole-word guess (Hangman.py lines 1505-1507 and 1523-1525). -/
def penalize (r : RoundState) : RoundState :=
  { r with
      wrong_guesses := r.wrong_guesses + 1,
      attempts_left := r.attempts_left - 1,
      level_score := max 0 (r.level_score - 5) }

/-- Session update performed when a round is won (Hangman.py lines
1541-1546, and equivalently 1473-1475 in the hint-completion path):
the round score is banked, the level advances and one hint is granted. -/
def winSession (s : SessionState) (level_score : Int) : SessionState :=
  { s with
      global_score := s.global_score + level_score,
      level := s.level + 1,
      hints := s.hints + 1 }

/-- The status check performed after a letter or word guess
(Hangman.py lines 1532-1576): on `win` bank the score, advance level,
grant a hint; on `lose` reset the level to 0 (the global score is kept
until the next `play_game` call); otherwise the loop continues. -/
def finish (r : RoundState) (s : SessionState) (n : Notice) :
    RoundState × SessionState × Outcome :=
  match check_game_status r.hidden_word r.word_to_guess r.attempts_left
      r.wrong_guesses r.one_time_guess with
  | Status.win => (r, winSession s r.level_score, Outcome.win)
  | Status.lose => (r, { s with level := 0 }, Outcome.lose)
  | Status.cont => (r, s, Outcome.playOn n)

/-- The hint branch of `play_game` (Hangman.py lines 1458-1486), after
the `self.hints > 0` test: apply the result of `get_hint`; when the
mask changed and a letter was returned, record the letter, bump the
`guessed` counter, and on completion of the word award 10 points and
perform the win updates (lines 1471-1475); otherwise the loop
continues with no status check. -/
def hint_apply (r : RoundState) (s : SessionState)
    (res : List Char × Option Char × Int) :
    RoundState × SessionState × Outcome :=
  match res with
  | (_, none, new_hints) =>
    (r, { s with hints := new_hints }, Outcome.playOn Notice.nothingToHint)
  | (new_hidden, some letter, new_hints) =>
    if new_hidden = r.hidden_word then
      (r, { s with hints := new_hints }, Outcome.playOn Notice.nothingToHint)
    else
      let r1 := { r with
                    hidden_word := new_hidden,
                    guessed_letters := r.guessed_letters.insert letter,
                    guessed := r.guessed + 1 }
      if new_hidden = r.word_to_guess then
        let r2 := { r1 with level_score := r1.level_score + 10 }
        (r2, winSession { s with hints := new_hints } r2.level_score,
          Outcome.win)
      else
        (r1, { s with hints := new_hints },
          Outcome.playOn Notice.hintRevealed)

/-- One iteration of the inner loop of `play_game` (Hangman.py lines
1436-1576) on one player action: `stp` stops (session state kept),
`hint` runs the hint branch, a letter guess handles repeat / correct /
incorrect cases, a word guess handles correct / incorrect cases
(the whole-word bonus is +50 with the flag set when `guessed <= 1`,
else +20, lines 1511-1518), and anything else is rejected.  Letter and
word guesses end with the `check_game_status` dispatch. -/
def play_step (r : RoundState) (s : SessionState) (a : PlayerAction) :
    RoundState × SessionState × Outcome :=
  match a with
  | PlayerAction.stop => (r, s, Outcome.stopped)
  | PlayerAction.hint k =>
    if 0 < s.hints then
      hint_apply r s (get_hint r.word_to_guess r.hidden_word s.hints k)
    else (r, s, Outcome.playOn Notice.noHintsLeft)
  | PlayerAction.guessLetter c =>
    if c ∈ r.guessed_letters then (r, s, Outcome.playOn Notice.repeatGuess)
    else
      let r1 := { r with guessed_letters := c :: r.guessed_letters }
      if c ∈ r.word_to_guess then
        finish { r1 with
                   hidden_word :=
                     update_hidden_word r.word_to_guess r.hidden_word c,
                   guessed := r1.guessed + 1,
                   level_score := r1.level_score + 10 } s Notice.correct
      else finish (penalize r1) s Notice.incorrect
  | PlayerAction.guessWord w =>
    if w = r.word_to_guess then
      finish { r with
                 hidden_word := r.word_to_guess,
                 one_time_guess :=
                   if r.guessed ≤ 1 then true else r.one_time_guess,
                 level_score :=
                   r.level_score + (if r.guessed ≤ 1 then 50 else 20) }
        s Notice.correct
    else finish (penalize r) s Notice.incorrect
  | PlayerAction.invalid => (r, s, Outcome.playOn Notice.invalidInput)

/-- Round initialisation (Hangman.py lines 1424-1433). -/
def init_round (word : List Char) : RoundState :=
  { word_to_guess := word,
    hidden_word := List.replicate word.length '-',
    guessed_letters := [],
    attempts_left := 6,
    wrong_guesses := 0,
    level_score := 0,
    guessed := 0,
    one_time_guess := false }

/-- Start of a `play_game` call (Hangman.py lines 1415-1420 plus the
hint assignment of `select_difficulty`): the global score is reset only
when the level is 0, and the hint balance is set from the chosen mode.
`play_game` never resets `self.level` itself. -/
def play_game_start (s : SessionState) (m : Mode) : SessionState :=
  let s1 := if s.level = 0 then { s with global_score := 0 } else s
  { s1 with hints := initial_hints m }

/-- Round states reachable inside one round: the freshly initialised
state (with an arbitrary session carried over from earlier rounds), and
anything produced by a loop iteration that continues the round. -/
inductive Reachable : RoundState → SessionState → Prop
  | init (word : List Char) (s : SessionState) : Reachable (init_round word) s
  | step (r : RoundState) (s : SessionState) (a : PlayerAction) (n : Notice)
      (r' : RoundState) (s' : SessionState)
      (hr : Reachable r s)
      (hs : play_step r s a = (r', s', Outcome.playOn n)) :
      Reachable r' s'

/-- The hint balance after the action's own consumption, before any win
grant: `get_hint` decrements the balance by one when it reveals a
letter (Hangman.py line 1401); other actions do not touch it. -/
def hints_after_consume (s : SessionState) (a : PlayerAction) : Int :=
  match a with
  | PlayerAction.hint _ => s.hints - 1
  | _ => s.hints

/-! ### Basic lemmas about the status check and the post-guess dispatch -/

lemma check_game_status_win_iff (h w : List Char) (a : Int) (wg : Nat)
    (o : Bool) : check_game_status h w a wg o = Status.win ↔ h = w := by
  unfold check_game_status
  split_ifs <;> simp_all

lemma check_game_status_lose_iff (h w : List Char) (a : Int) (wg : Nat)
    (o : Bool) :
    check_game_status h w a wg o = Status.lose ↔ ¬h = w ∧ a = 0 := by
  unfold check_game_status
  split_ifs <;> simp_all

lemma check_game_status_cont_iff (h w : List Char) (a : Int) (wg : Nat)
    (o : Bool) :
    check_game_status h w a wg o = Status.cont ↔ ¬h = w ∧ ¬a = 0 := by
  unfold check_game_status
  split_ifs <;> simp_all

/-- Exhaustive description of `finish`: the round state is passed
through unchanged, and the session/outcome depend on the status. -/
lemma finish_cases (r : RoundState) (s : SessionState) (n : Notice) :
    (finish r s n = (r, winSession s r.level_score, Outcome.win)
       ∧ r.hidden_word = r.word_to_guess)
  ∨ (finish r s n = (r, { s with level := 0 }, Outcome.lose)
       ∧ ¬r.hidden_word = r.word_to_guess ∧ r.attempts_left = 0)
  ∨ (finish r s n = (r, s, Outcome.playOn n)
       ∧ ¬r.hidden_word = r.word_to_guess ∧ ¬r.attempts_left = 0) := by
  unfold finish check_game_status
  split_ifs with h1 h2 <;> simp_all

lemma finish_fst (r : RoundState) (s : SessionState) (n : Notice) :
    (finish r s n).1 = r := by
  rcases finish_cases r s n with ⟨h, -⟩ | ⟨h, -⟩ | ⟨h, -⟩ <;> rw [h]

lemma finish_lose_iff (r : RoundState) (s : SessionState) (n : Notice) :
    (finish r s n).2.2 = Outcome.lose ↔
      ¬r.hidden_word = r.word_to_guess ∧ r.attempts_left = 0 := by
  rcases finish_cases r s n with ⟨h, hw⟩ | ⟨h, hw⟩ | ⟨h, hw⟩ <;>
    rw [h] <;> simp_all

lemma finish_eq_win {r : RoundState} {s : SessionState} {n : Notice}
    {r' : RoundState} {s' : SessionState}
    (h : finish r s n = (r', s', Outcome.win)) :
    r' = r ∧ s' = winSession s r.level_score
      ∧ r.hidden_word = r.word_to_guess := by
  rcases finish_cases r s n with ⟨he, hw⟩ | ⟨he, hw⟩ | ⟨he, hw⟩ <;>
    rw [he] at h <;> injection h with h1 h2 <;> injection h2 with h2a h2b
  · exact ⟨h1.symm, h2a.symm, hw⟩
  · exact Outcome.noConfusion h2b
  · exact Outcome.noConfusion h2b

lemma finish_eq_playOn {r : RoundState} {s : SessionState} {n : Notice}
    {r' : RoundState} {s' : SessionState} {n' : Notice}
    (h : finish r s n = (r', s', Outcome.playOn n')) :
    r' = r ∧ s' = s ∧ n' = n ∧ ¬r.hidden_word = r.word_to_guess
      ∧ ¬r.attempts_left = 0 := by
  rcases finish_cases r s n with ⟨he, hw⟩ | ⟨he, hw⟩ | ⟨he, hw⟩ <;>
    rw [he] at h <;> injection h with h1 h2 <;> injection h2 with h2a h2b
  · exact Outcome.noConfusion h2b
  · exact Outcome.noConfusion h2b
  · injection h2b with hn
    exact ⟨h1.symm, h2a.symm, hn.symm, hw.1, hw.2⟩

/-! ### Lemmas about masks, hidden positions and the hint machinery -/

lemma hidden_positions_from_spec :
    ∀ (h : List Char) (i p : Nat), p ∈ hidden_positions_from h i →
      i ≤ p ∧ h.get? (p - i) = some '-' := by
  intro h
  induction h with
  | nil => intro i p hp; simp [hidden_positions_from] at hp
  | cons c cs ih =>
    intro i p hp
    unfold hidden_positions_from at hp
    by_cases hc : c = '-'
    · rw [if_pos hc] at hp
      rcases List.mem_cons.mp hp with h1 | h2
      · subst h1
        refine ⟨Nat.le_refl _, ?_⟩
        simp [Nat.sub_self, hc]
      · obtain ⟨hle, hg⟩ := ih (i + 1) p h2
        refine ⟨by omega, ?_⟩
        have hpi : p - i = (p - (i + 1)) + 1 := by omega
        rw [hpi]
        simpa using hg
    · rw [if_neg hc] at hp
      obtain ⟨hle, hg⟩ := ih (i + 1) p hp
      refine ⟨by omega, ?_⟩
      have hpi : p - i = (p - (i + 1)) + 1 := by omega
      rw [hpi]
      simpa using hg

/-- A member of `hidden_positions` points at a `-` in the mask. -/
lemma mem_hidden_positions {h : List Char} {p : Nat}
    (hp : p ∈ hidden_positions h) : h.get? p = some '-' := by
  have := hidden_positions_from_spec h 0 p hp
  simpa using this.2

/-- Pointwise description of `update_hidden_word`. -/
lemma update_hidden_word_get? :
    ∀ (w h : List Char) (g : Char) (i : Nat) (wc hc : Char),
      w.get? i = some wc → h.get? i = some hc →
      (update_hidden_word w h g).get? i =
        some (if wc = g then g else hc) := by
  intro w
  induction w with
  | nil => intro h g i wc hc hw _; simp at hw
  | cons a w' ih =>
    intro h g i wc hc hw hh
    cases h with
    | nil => simp at hh
    | cons b h' =>
      cases i with
      | zero =>
        simp only [List.get?_cons_zero, Option.some.injEq] at hw hh
        subst hw; subst hh
        simp [update_hidden_word]
      | succ j =>
        simp only [List.get?_cons_succ] at hw hh
        have := ih h' g j wc hc hw hh
        simpa [update_hidden_word] using this

/-- Shape of `get_hint` when the balance is positive: either there is
nothing to reveal, or the hint reveals the letter of some hidden
position and consumes a hint. -/
lemma get_hint_cases (w h : List Char) (hints : Int) (k : Nat)
    (hpos : 0 < hints) :
    (hidden_positions h = [] ∧ get_hint w h hints k = (h, none, hints))
  ∨ (∃ pos, pos ∈ hidden_positions h ∧
       get_hint w h hints k =
         (update_hidden_word w h (w.getD pos '-'),
           some (w.getD pos '-'), hints - 1)) := by
  simp only [get_hint]
  split_ifs with h1 h2
  · omega
  · exact Or.inl ⟨List.isEmpty_iff.mp h2, rfl⟩
  · right
    refine ⟨(hidden_positions h).getD
        (k % (hidden_positions h).length) 0, ?_, rfl⟩
    have hne : hidden_positions h ≠ [] := by
      intro hnil
      exact h2 (by simp [hnil])
    have hlt : k % (hidden_positions h).length <
        (hidden_positions h).length :=
      Nat.mod_lt _ (List.length_pos.mpr hne)
    rw [List.getD_eq_getElem _ _ hlt]
    exact List.getElem_mem hlt

lemma hint_apply_none (r : RoundState) (s : SessionState)
    (nh : List Char) (ni : Int) :
    hint_apply r s (nh, none, ni) =
      (r, { s with hints := ni }, Outcome.playOn Notice.nothingToHint) := rfl

lemma hint_apply_attempts (r : RoundState) (s : SessionState)
    (res : List Char × Option Char × Int) :
    ((hint_apply r s res).1).attempts_left = r.attempts_left := by
  rcases res with ⟨nh, _ | l, ni⟩
  · rfl
  · simp only [hint_apply]
    split_ifs <;> rfl

lemma hint_apply_word (r : RoundState) (s : SessionState)
    (res : List Char × Option Char × Int) :
    ((hint_apply r s res).1).word_to_guess = r.word_to_guess := by
  rcases res with ⟨nh, _ | l, ni⟩
  · rfl
  · simp only [hint_apply]
    split_ifs <;> rfl

lemma hint_apply_score (r : RoundState) (s : SessionState)
    (res : List Char × Option Char × Int) :
    ((hint_apply r s res).1).level_score = r.level_score
  ∨ ((hint_apply r s res).1).level_score = r.level_score + 10 := by
  rcases res with ⟨nh, _ | l, ni⟩
  · exact Or.inl rfl
  · simp only [hint_apply]
    split_ifs
    · exact Or.inl rfl
    · exact Or.inr rfl
    · exact Or.inl rfl

lemma hint_apply_outcome (r : RoundState) (s : SessionState)
    (res : List Char × Option Char × Int) :
    (hint_apply r s res).2.2 ≠ Outcome.lose
  ∧ (hint_apply r s res).2.2 ≠ Outcome.stopped := by
  rcases res with ⟨nh, _ | l, ni⟩
  · simp [hint_apply]
  · simp only [hint_apply]
    split_ifs <;> simp

/-- A hint result carrying a letter and a changed mask always bumps the
`guessed` counter by one, whether or not it completes the word. -/
lemma hint_apply_some_guessed {r : RoundState} {s : SessionState}
    {nh : List Char} {l : Char} {ni : Int}
    (hne : ¬nh = r.hidden_word) :
    ((hint_apply r s (nh, some l, ni)).1).guessed = r.guessed + 1 := by
  simp only [hint_apply]
  rw [if_neg hne]
  split_ifs <;> rfl

/-- When a hint wins the round, the session update is the standard win
update applied after the hint consumption recorded in the result. -/
lemma hint_apply_eq_win {r : RoundState} {s : SessionState}
    {nh : List Char} {ni : Int} {rl : Option Char}
    {r' : RoundState} {s' : SessionState}
    (h : hint_apply r s (nh, rl, ni) = (r', s', Outcome.win)) :
    s'.level = s.level + 1 ∧ s'.hints = ni + 1 := by
  cases rl with
  | none =>
    rw [hint_apply_none] at h
    injection h with h1 h2
    injection h2 with h2a h2b
    exact Outcome.noConfusion h2b
  | some l =>
    simp only [hint_apply] at h
    split_ifs at h with hh hw
    · injection h with h1 h2
      injection h2 with h2a h2b
      exact Outcome.noConfusion h2b
    · injection h with h1 h2
      injection h2 with h2a h2b
      subst h2a
      exact ⟨rfl, rfl⟩
    · injection h with h1 h2
      injection h2 with h2a h2b
      exact Outcome.noConfusion h2b

/-! ### One-step frame properties and reachability invariants -/

lemma play_step_score_nonneg (r : RoundState) (s : SessionState)
    (a : PlayerAction) (h : 0 ≤ r.level_score) :
    0 ≤ ((play_step r s a).1).level_score := by
  cases a with
  | stop => exact h
  | invalid => exact h
  | hint k =>
    simp only [play_step]
    split_ifs with hh
    · rcases hint_apply_score r s
          (get_hint r.word_to_guess r.hidden_word s.hints k) with h1 | h1 <;>
        rw [h1] <;> omega
    · exact h
  | guessLetter c =>
    simp only [play_step]
    split_ifs with h1 h2
    · exact h
    · rw [finish_fst]
      dsimp only
      omega
    · rw [finish_fst]
      simp only [penalize]
      exact le_max_left 0 _
  | guessWord w =>
    simp only [play_step]
    split_ifs with h1 h2
    · rw [finish_fst]
      dsimp only
      omega
    · rw [finish_fst]
      dsimp only
      omega
    · rw [finish_fst]
      simp only [penalize]
      exact le_max_left 0 _

lemma play_step_playOn_attempts (r : RoundState) (s : SessionState)
    (a : PlayerAction) (n : Notice) (r' : RoundState) (s' : SessionState)
    (h : 0 < r.attempts_left)
    (he : play_step r s a = (r', s', Outcome.playOn n)) :
    0 < r'.attempts_left := by
  cases a with
  | stop =>
    simp only [play_step] at he
    injection he with h1 h2
    injection h2 with h2a h2b
    exact Outcome.noConfusion h2b
  | invalid =>
    simp only [play_step] at he
    injection he with h1 h2
    subst h1
    exact h
  | hint k =>
    simp only [play_step] at he
    split_ifs at he with hh
    · have ha := hint_apply_attempts r s
        (get_hint r.word_to_guess r.hidden_word s.hints k)
      rw [he] at ha
      rw [ha]
      exact h
    · injection he with h1 h2
      subst h1
      exact h
  | guessLetter c =>
    simp only [play_step] at he
    split_ifs at he with h1 h2
    · injection he with e1 e2
      subst e1
      exact h
    · obtain ⟨e1, -, -, -, -⟩ := finish_eq_playOn he
      subst e1
      exact h
    · obtain ⟨e1, -, -, -, hnz⟩ := finish_eq_playOn he
      subst e1
      simp only [penalize] at hnz ⊢
      omega
  | guessWord w =>
    simp only [play_step] at he
    split_ifs at he with h1 h2
    · obtain ⟨e1, -, -, -, -⟩ := finish_eq_playOn he
      subst e1
      exact h
    · obtain ⟨e1, -, -, -, -⟩ := finish_eq_playOn he
      subst e1
      exact h
    · obtain ⟨e1, -, -, -, hnz⟩ := finish_eq_playOn he
      subst e1
      simp only [penalize] at hnz ⊢
      omega

/-- Invariant: in every reachable in-round state at least one attempt
remains (a guess that exhausts the budget ends the round at once). -/
lemma reachable_attempts_pos {r : RoundState} {s : SessionState}
    (h : Reachable r s) : 0 < r.attempts_left := by
  induction h with
  | init word s => norm_num [init_round]
  | step r s a n r' s' hr hs ih =>
    exact play_step_playOn_attempts r s a n r' s' ih hs

/-- Invariant: the round score of a reachable state is never negative. -/
lemma reachable_score_nonneg {r : RoundState} {s : SessionState}
    (h : Reachable r s) : 0 ≤ r.level_score := by
  induction h with
  | init word s => norm_num [init_round]
  | step r s a n r' s' hr hs ih =>
    have hstep := play_step_score_nonneg r s a ih
    rw [hs] at hstep
    exact hstep

lemma play_step_attempts_nonneg (r : RoundState) (s : SessionState)
    (a : PlayerAction) (h : 0 < r.attempts_left) :
    0 ≤ ((play_step r s a).1).attempts_left := by
  cases a with
  | stop => exact le_of_lt h
  | invalid => exact le_of_lt h
  | hint k =>
    dsimp only [play_step]
    split_ifs with hh
    · rw [hint_apply_attempts]
      omega
    · exact le_of_lt h
  | guessLetter c =>
    dsimp only [play_step]
    split_ifs with h1 h2
    · exact le_of_lt h
    · rw [finish_fst]
      dsimp only
      omega
    · rw [finish_fst]
      simp only [penalize]
      omega
  | guessWord w =>
    dsimp only [play_step]
    split_ifs with h1 h2
    · rw [finish_fst]
      dsimp only
      omega
    · rw [finish_fst]
      dsimp only
      omega
    · rw [finish_fst]
      simp only [penalize]
      omega

/-- In a state with attempts remaining, a step reports `lose` exactly
when it leaves the attempt budget at 0 with the word not fully
revealed. -/
lemma play_step_lose_iff (r : RoundState) (s : SessionState)
    (a : PlayerAction) (h : 0 < r.attempts_left) :
    (play_step r s a).2.2 = Outcome.lose ↔
      ((play_step r s a).1).attempts_left = 0
        ∧ ¬((play_step r s a).1).hidden_word = r.word_to_guess := by
  cases a with
  | stop =>
    dsimp only [play_step]
    constructor
    · intro hc
      exact absurd hc (by simp)
    · intro hc
      exact absurd hc.1 (by omega)
  | invalid =>
    dsimp only [play_step]
    constructor
    · intro hc
      exact absurd hc (by simp)
    · intro hc
      exact absurd hc.1 (by omega)
  | hint k =>
    dsimp only [play_step]
    split_ifs with hh
    · have h1 := hint_apply_outcome r s
        (get_hint r.word_to_guess r.hidden_word s.hints k)
      have h2 := hint_apply_attempts r s
        (get_hint r.word_to_guess r.hidden_word s.hints k)
      constructor
      · intro hc
        exact absurd hc h1.1
      · intro hc
        rw [h2] at hc
        exact absurd hc.1 (by omega)
    · dsimp only
      constructor
      · intro hc
        exact absurd hc (by simp)
      · intro hc
        exact absurd hc.1 (by omega)
  | guessLetter c =>
    dsimp only [play_step]
    split_ifs with h1 h2
    · dsimp only
      constructor
      · intro hc
        exact absurd hc (by simp)
      · intro hc
        exact absurd hc.1 (by omega)
    · rw [finish_lose_iff, finish_fst]
      dsimp only
      constructor
      · rintro ⟨-, h0⟩
        exact absurd h0 (by omega)
      · rintro ⟨h0, -⟩
        exact absurd h0 (by omega)
    · rw [finish_lose_iff, finish_fst]
      simp only [penalize]
      tauto
  | guessWord w =>
    dsimp only [play_step]
    split_ifs with h1 h2
    · rw [finish_lose_iff, finish_fst]
      dsimp only
      constructor
      · rintro ⟨hne, -⟩
        exact absurd rfl hne
      · rintro ⟨-, hne⟩
        exact absurd rfl hne
    · rw [finish_lose_iff, finish_fst]
      dsimp only
      constructor
      · rintro ⟨hne, -⟩
        exact absurd rfl hne
      · rintro ⟨-, hne⟩
        exact absurd rfl hne
    · rw [finish_lose_iff, finish_fst]
      simp only [penalize]
      tauto

/-- Revealing the letter of a still-hidden position changes the mask
when the word has no placeholder character and matches the mask in
length. -/
lemma update_at_hidden_ne {w h : List Char} {pos : Nat}
    (hlen : h.length = w.length) (hdash : '-' ∉ w)
    (hpos : h.get? pos = some '-') :
    ¬update_hidden_word w h (w.getD pos '-') = h := by
  intro heq
  have hlt : pos < h.length := by
    by_contra hge
    rw [List.get?_eq_none.mpr (by omega)] at hpos
    exact Option.noConfusion hpos
  have hltw : pos < w.length := by omega
  have hwg : w.get? pos = some (w.getD pos '-') := by
    cases hw : w.get? pos with
    | none =>
      have := List.get?_eq_none.mp hw
      omega
    | some a =>
      rw [List.getD_eq_getD_get?, hw]
      rfl
  have hupd := update_hidden_word_get? w h (w.getD pos '-') pos _ _ hwg hpos
  rw [if_pos rfl, heq, hpos] at hupd
  injection hupd with hc
  have hmem : w.getD pos '-' ∈ w := by
    rw [List.getD_eq_getElem _ _ hltw]
    exact List.getElem_mem hltw
  rw [← hc] at hmem
  exact hdash hmem

/-! ### Claim theorems -/

/-- C4: `check_game_status` returns `win` if and only if the reveal
mask equals the secret; it returns `lose` if and only if no attempts
remain and the mask is not fully revealed (the win test is made
first); in every other state it returns `cont`. -/
theorem c4_game_status_characterization (h w : List Char) (a : Int)
    (wg : Nat) (o : Bool) :
    (check_game_status h w a wg o = Status.win ↔ h = w)
  ∧ (check_game_status h w a wg o = Status.lose ↔ a = 0 ∧ ¬h = w)
  ∧ (check_game_status h w a wg o = Status.cont ↔ ¬h = w ∧ ¬a = 0) := by
  refine ⟨check_game_status_win_iff h w a wg o, ?_,
    check_game_status_cont_iff h w a wg o⟩
  rw [check_game_status_lose_iff]
  tauto

/-- C6: guessing a letter that is already in `guessed_letters` returns
the round state and the session state entirely unchanged — in
particular `attempts_left`, `level_score`, `hidden_word`,
`wrong_guesses` and `guessed_letters` — and only signals the
repeat-guess notice; no attempt is consumed. -/
theorem c6_repeat_guess_noop (r : RoundState) (s : SessionState)
    (c : Char) (h : c ∈ r.guessed_letters) :
    play_step r s (PlayerAction.guessLetter c)
      = (r, s, Outcome.playOn Notice.repeatGuess) := by
  dsimp only [play_step]
  rw [if_pos h]

theorem c6_witness :
    play_step { init_round ['c', 'a', 't'] with guessed_letters := ['a'] }
        { level := 0, global_score := 0, hints := 3 }
        (PlayerAction.guessLetter 'a')
      = ({ init_round ['c', 'a', 't'] with guessed_letters := ['a'] },
          { level := 0, global_score := 0, hints := 3 },
          Outcome.playOn Notice.repeatGuess) :=
  c6_repeat_guess_noop _ _ 'a' (by decide)

/-- C8: requesting a hint when no hints are available performs no state
change at all — the round state (so `hidden_word`, `level_score` and
`guessed_letters`) and the session state (so `hints`) are returned
unchanged — and signals the no-hints-left notice. -/
theorem c8_hint_without_hints_noop (r : RoundState) (s : SessionState)
    (k : Nat) (h : s.hints = 0) :
    play_step r s (PlayerAction.hint k)
      = (r, s, Outcome.playOn Notice.noHintsLeft) := by
  dsimp only [play_step]
  rw [if_neg (by omega)]

theorem c8_witness :
    play_step (init_round ['c', 'a', 't'])
        { level := 2, global_score := 40, hints := 0 }
        (PlayerAction.hint 5)
      = (init_round ['c', 'a', 't'],
          { level := 2, global_score := 40, hints := 0 },
          Outcome.playOn Notice.noHintsLeft) :=
  c8_hint_without_hints_noop _ _ 5 rfl

/-- C3: a whole-word guess equal to the secret fully reveals the mask;
when the round's `guessed` count is at most 1 the flag
`one_time_guess` is set and the round score increases by 50, otherwise
the round score increases by 20 (and the flag is left as it was). -/
theorem c3_correct_word_guess (r : RoundState) (s : SessionState) :
    ((play_step r s (PlayerAction.guessWord r.word_to_guess)).1).hidden_word
        = r.word_to_guess
  ∧ ((play_step r s (PlayerAction.guessWord r.word_to_guess)).1).level_score
        = r.level_score + (if r.guessed ≤ 1 then 50 else 20)
  ∧ ((play_step r s (PlayerAction.guessWord r.word_to_guess)).1).one_time_guess
        = (if r.guessed ≤ 1 then true else r.one_time_guess) := by
  dsimp only [play_step]
  rw [if_pos rfl, finish_fst]
  exact ⟨rfl, rfl, rfl⟩

/-- C9: in every reachable round state the round score is
non-negative, and it remains non-negative after any further player
action — the 5-point deduction for an incorrect guess is clamped at a
floor of 0. -/
theorem c9_round_score_nonneg (r : RoundState) (s : SessionState)
    (h : Reachable r s) :
    0 ≤ r.level_score
  ∧ ∀ a : PlayerAction, 0 ≤ ((play_step r s a).1).level_score :=
  ⟨reachable_score_nonneg h,
   fun a => play_step_score_nonneg r s a (reachable_score_nonneg h)⟩

theorem c9_witness :
    0 ≤ (init_round ['d', 'o', 'g']).level_score :=
  (c9_round_score_nonneg (init_round ['d', 'o', 'g'])
      { level := 0, global_score := 0, hints := 3 }
      (Reachable.init ['d', 'o', 'g'] _)).1

/-- C7: the attempt budget starts at 6; every reachable in-round state
has a positive budget (so it is in particular never negative, and
stays non-negative after any step); a distinct incorrect letter guess
and an incorrect whole-word guess each decrement it by exactly 1; and
a step reports `lose` exactly when it leaves the budget at 0 with the
word not fully revealed. -/
theorem c7_attempts_budget (r : RoundState) (s : SessionState)
    (h : Reachable r s) :
    (∀ word : List Char, (init_round word).attempts_left = 6)
  ∧ 0 < r.attempts_left
  ∧ (∀ c : Char, ¬c ∈ r.guessed_letters → ¬c ∈ r.word_to_guess →
      ((play_step r s (PlayerAction.guessLetter c)).1).attempts_left
        = r.attempts_left - 1)
  ∧ (∀ w : List Char, ¬w = r.word_to_guess →
      ((play_step r s (PlayerAction.guessWord w)).1).attempts_left
        = r.attempts_left - 1)
  ∧ (∀ a : PlayerAction, 0 ≤ ((play_step r s a).1).attempts_left)
  ∧ (∀ a : PlayerAction,
      (play_step r s a).2.2 = Outcome.lose ↔
        ((play_step r s a).1).attempts_left = 0
          ∧ ¬((play_step r s a).1).hidden_word = r.word_to_guess) := by
  have hpos := reachable_attempts_pos h
  refine ⟨fun word => rfl, hpos, ?_, ?_,
    fun a => play_step_attempts_nonneg r s a hpos,
    fun a => play_step_lose_iff r s a hpos⟩
  · intro c h1 h2
    dsimp only [play_step]
    rw [if_neg h1, if_neg h2, finish_fst]
    rfl
  · intro w h1
    dsimp only [play_step]
    rw [if_neg h1, finish_fst]
    rfl

theorem c7_witness :
    0 < (init_round ['d', 'o', 'g']).attempts_left :=
  (c7_attempts_budget (init_round ['d', 'o', 'g'])
      { level := 0, global_score := 0, hints := 3 }
      (Reachable.init ['d', 'o', 'g'] _)).2.1

/-- C5: whenever a step ends the round with a win, the level advances
by exactly 1 and the session's hint balance ends exactly one above the
balance left by the action itself (`hints_after_consume`): a win by a
correct letter or word guess grants one hint on an untouched balance,
while a hint-completed win first consumes one hint inside `get_hint`
and then grants one back.  This holds for every winning action. -/
theorem c5_win_increments (r : RoundState) (s : SessionState)
    (a : PlayerAction) (r' : RoundState) (s' : SessionState)
    (h : play_step r s a = (r', s', Outcome.win)) :
    s'.level = s.level + 1 ∧ s'.hints = hints_after_consume s a + 1 := by
  cases a with
  | stop =>
    dsimp only [play_step] at h
    injection h with h1 h2
    injection h2 with h2a h2b
    exact Outcome.noConfusion h2b
  | invalid =>
    dsimp only [play_step] at h
    injection h with h1 h2
    injection h2 with h2a h2b
    exact Outcome.noConfusion h2b
  | hint k =>
    dsimp only [play_step] at h
    split_ifs at h with hh
    · rcases get_hint_cases r.word_to_guess r.hidden_word s.hints k hh with
        ⟨hnil, hgh⟩ | ⟨pos, hmem, hgh⟩
      · rw [hgh, hint_apply_none] at h
        injection h with h1 h2
        injection h2 with h2a h2b
        exact Outcome.noConfusion h2b
      · rw [hgh] at h
        have hw := hint_apply_eq_win h
        simpa [hints_after_consume] using hw
    · injection h with h1 h2
      injection h2 with h2a h2b
      exact Outcome.noConfusion h2b
  | guessLetter c =>
    dsimp only [play_step] at h
    split_ifs at h with h1 h2
    · injection h with e1 e2
      injection e2 with e2a e2b
      exact Outcome.noConfusion e2b
    · obtain ⟨-, hs', -⟩ := finish_eq_win h
      subst hs'
      simp [winSession, hints_after_consume]
    · obtain ⟨-, hs', -⟩ := finish_eq_win h
      subst hs'
      simp [winSession, hints_after_consume]
  | guessWord w =>
    dsimp only [play_step] at h
    split_ifs at h with h1 h2
    · obtain ⟨-, hs', -⟩ := finish_eq_win h
      subst hs'
      simp [winSession, hints_after_consume]
    · obtain ⟨-, hs', -⟩ := finish_eq_win h
      subst hs'
      simp [winSession, hints_after_consume]
    · obtain ⟨-, hs', -⟩ := finish_eq_win h
      subst hs'
      simp [winSession, hints_after_consume]

theorem c5_witness :
    ({ level := 1, global_score := 50, hints := 4 } : SessionState).level
        = ({ level := 0, global_score := 0, hints := 3 } :
            SessionState).level + 1
  ∧ ({ level := 1, global_score := 50, hints := 4 } : SessionState).hints
        = hints_after_consume { level := 0, global_score := 0, hints := 3 }
            (PlayerAction.guessWord ['s', 'u', 'n']) + 1 :=
  c5_win_increments (init_round ['s', 'u', 'n'])
    { level := 0, global_score := 0, hints := 3 }
    (PlayerAction.guessWord ['s', 'u', 'n'])
    { word_to_guess := ['s', 'u', 'n'], hidden_word := ['s', 'u', 'n'],
      guessed_letters := [], attempts_left := 6, wrong_guesses := 0,
      level_score := 50, guessed := 0, one_time_guess := true }
    { level := 1, global_score := 50, hints := 4 }
    (by decide)

/-- C10: a hint reveal increments the same `guessed` counter that the
whole-word bonus branch reads.  With a hint available and a hidden
position left (for a well-formed round: mask and word of equal length,
no placeholder character in the word), the hint step bumps `guessed`
by exactly 1; and the correct-word branch reading that counter gives
the +50 bonus with the flag set when `guessed = 1` (one hint reveal
and nothing else) and the +20 bonus with the flag left false when
`guessed ≥ 2` (two or more hint-or-correct-letter reveals). -/
theorem c10_hint_counts_toward_bonus (r : RoundState) (s : SessionState)
    (k : Nat) (hlen : r.hidden_word.length = r.word_to_guess.length)
    (hdash : '-' ∉ r.word_to_guess) (hh : 0 < s.hints)
    (hnz : ¬hidden_positions r.hidden_word = []) :
    ((play_step r s (PlayerAction.hint k)).1).guessed = r.guessed + 1
  ∧ (∀ r2 : RoundState, ∀ s2 : SessionState, r2.guessed = 1 →
      ((play_step r2 s2
          (PlayerAction.guessWord r2.word_to_guess)).1).one_time_guess
          = true
    ∧ ((play_step r2 s2
          (PlayerAction.guessWord r2.word_to_guess)).1).level_score
          = r2.level_score + 50)
  ∧ (∀ r2 : RoundState, ∀ s2 : SessionState, 2 ≤ r2.guessed →
      r2.one_time_guess = false →
      ((play_step r2 s2
          (PlayerAction.guessWord r2.word_to_guess)).1).one_time_guess
          = false
    ∧ ((play_step r2 s2
          (PlayerAction.guessWord r2.word_to_guess)).1).level_score
          = r2.level_score + 20) := by
  refine ⟨?_, ?_, ?_⟩
  · dsimp only [play_step]
    rw [if_pos hh]
    rcases get_hint_cases r.word_to_guess r.hidden_word s.hints k hh with
      ⟨hnil, hgh⟩ | ⟨pos, hmem, hgh⟩
    · exact absurd hnil hnz
    · rw [hgh]
      exact hint_apply_some_guessed
        (update_at_hidden_ne hlen hdash (mem_hidden_positions hmem))
  · intro r2 s2 hg
    dsimp only [play_step]
    rw [if_pos rfl, finish_fst]
    dsimp only
    rw [if_pos (by omega), if_pos (by omega)]
    exact ⟨rfl, rfl⟩
  · intro r2 s2 hg hflag
    dsimp only [play_step]
    rw [if_pos rfl, finish_fst]
    dsimp only
    rw [if_neg (by omega), if_neg (by omega)]
    exact ⟨hflag, rfl⟩

theorem c10_witness :
    ((play_step (init_round ['a', 'b'])
        { level := 0, global_score := 0, hints := 3 }
        (PlayerAction.hint 0)).1).guessed
      = (init_round ['a', 'b']).guessed + 1 :=
  (c10_hint_counts_toward_bonus (init_round ['a', 'b'])
      { level := 0, global_score := 0, hints := 3 } 0
      (by decide) (by decide) (by decide) (by decide)).1

/-- C1 counterexample: with secret `sun`, after two incorrect letter
guesses (`x`, `y`) — two prior letter guesses, no correct ones — a
correct whole-word guess still takes the +50 branch and sets
`one_time_guess`, where the claim demands the +20 branch with the flag
false (and the flag to be set only on a first-ever action). -/
theorem c1_counterexample :
    (let s0 : SessionState := { level := 0, global_score := 0, hints := 3 }
     let t1 := play_step (init_round ['s', 'u', 'n']) s0
       (PlayerAction.guessLetter 'x')
     let t2 := play_step t1.1 t1.2.1 (PlayerAction.guessLetter 'y')
     let t3 := play_step t2.1 t2.2.1 (PlayerAction.guessWord ['s', 'u', 'n'])
     t2.1.wrong_guesses = 2 ∧ t2.1.guessed = 0
       ∧ t3.1.one_time_guess = true ∧ t3.1.level_score = 50
       ∧ t3.2.2 = Outcome.win) := by
  decide

/-- C1 (amended): for a round whose flag is still unset, a correct
whole-word guess sets `one_time_guess` (with the +50 bonus) if and
only if at most one *correct* reveal — a correct letter guess or a
hint reveal, counted by `guessed` — preceded it, regardless of how
many incorrect guesses were made; with two or more prior correct
reveals it adds +20 and leaves the flag false. -/
theorem c1_first_guess_flag (r : RoundState) (s : SessionState)
    (hflag : r.one_time_guess = false) :
    (((play_step r s
         (PlayerAction.guessWord r.word_to_guess)).1).one_time_guess = true
        ↔ r.guessed ≤ 1)
  ∧ (r.guessed ≤ 1 →
      ((play_step r s (PlayerAction.guessWord r.word_to_guess)).1).level_score
        = r.level_score + 50)
  ∧ (2 ≤ r.guessed →
      ((play_step r s (PlayerAction.guessWord r.word_to_guess)).1).level_score
        = r.level_score + 20) := by
  dsimp only [play_step]
  rw [if_pos rfl, finish_fst]
  dsimp only
  refine ⟨?_, ?_, ?_⟩
  · by_cases hg : r.guessed ≤ 1
    · simp [hg]
    · simp [hg, hflag]
  · intro hg
    rw [if_pos hg]
  · intro hg
    rw [if_neg (by omega)]

theorem c1_witness :
    ((play_step (init_round ['s', 'u', 'n'])
        { level := 0, global_score := 0, hints := 3 }
        (PlayerAction.guessWord ['s', 'u', 'n'])).1).level_score
      = (init_round ['s', 'u', 'n']).level_score + 50
  ∧ ((play_step { init_round ['s', 'u', 'n'] with guessed := 2 }
        { level := 0, global_score := 0, hints := 3 }
        (PlayerAction.guessWord ['s', 'u', 'n'])).1).level_score
      = ({ init_round ['s', 'u', 'n'] with guessed := 2 } :
          RoundState).level_score + 20 :=
  ⟨(c1_first_guess_flag (init_round ['s', 'u', 'n'])
      { level := 0, global_score := 0, hints := 3 } rfl).2.1 (by decide),
   (c1_first_guess_flag { init_round ['s', 'u', 'n'] with guessed := 2 }
      { level := 0, global_score := 0, hints := 3 } rfl).2.2 (by decide)⟩

/-- C2 counterexample: win one round (level 1, score 50), stop, and
start a new session: `play_game_start` finds `level = 1` and therefore
does not reset the global score, so the new session starts with
`level = 1` and `global_score = 50`, not 0 and 0 as the claim
concludes. -/
theorem c2_counterexample :
    (let s0 : SessionState := { level := 0, global_score := 0, hints := 3 }
     let t1 := play_step (init_round ['s', 'u', 'n']) s0
       (PlayerAction.guessWord ['s', 'u', 'n'])
     let t2 := play_step (init_round ['c', 'a', 't']) t1.2.1
       PlayerAction.stop
     let s3 := play_game_start t2.2.1 Mode.normal
     t1.2.2 = Outcome.win ∧ t2.2.2 = Outcome.stopped
       ∧ s3.level = 1 ∧ s3.global_score = 50) := by
  decide

/-- C2 (amended): `play_game_start` never changes the level and resets
the global score only when the level is 0; an explicit stop returns
the session state untouched (level not reset).  Hence a session
started with `level = 0` (program start, or a restart after a loss,
which resets the level) begins with a zero total score, but a session
started after a stop with `level > 0` keeps both its level and its
total score. -/
theorem c2_session_start (s : SessionState) (m : Mode) (r : RoundState) :
    (play_game_start s m).level = s.level
  ∧ (s.level = 0 → (play_game_start s m).global_score = 0)
  ∧ (¬s.level = 0 → (play_game_start s m).global_score = s.global_score)
  ∧ play_step r s PlayerAction.stop = (r, s, Outcome.stopped) := by
  refine ⟨?_, ?_, ?_, rfl⟩
  · dsimp only [play_game_start]
    split_ifs <;> rfl
  · intro h0
    dsimp only [play_game_start]
    rw [if_pos h0]
  · intro h0
    dsimp only [play_game_start]
    rw [if_neg h0]

theorem c2_witness :
    (play_game_start { level := 0, global_score := 7, hints := 0 }
        Mode.normal).global_score = 0 :=
  (c2_session_start { level := 0, global_score := 7, hints := 0 }
      Mode.normal (init_round ['c', 'a', 't'])).2.1 rfl
